import Mathlib

/-!
# Verification of signingscript's core signing logic

Shallow embedding of the pure logic of `signingscript/task.py` and
`signingscript/sign.py` (an artifact-signing orchestrator), together with
theorems settling the specification claims about it.

Modelling conventions:
* Python strings are Lean `String`s; path helpers (`os.path.basename`,
  `os.path.splitext`, `os.path.join`, `fnmatch.fnmatch` restricted to the
  patterns the code uses) are re-implemented faithfully for POSIX below.
* Python dicts built in insertion order are modelled as association lists
  in insertion order.
* Raised exceptions become `Except` errors; the exception classes
  (`TaskVerificationError`, `SigningServerError`, `SigningScriptError`)
  become constructors of `ScriptError`.
* Network and filesystem effects are passed in as explicit functions
  (e.g. which paths exist on disk, what each signing server responds).
-/

deriving instance DecidableEq for Except

namespace Signingscript

/-- Error kinds, mirroring the exception classes raised by the code.
`taskVerificationBatch` carries the structured violation list that
`build_filelist_dict` collects into one `TaskVerificationError`. -/
inductive Violation where
  | missingPath (full_path : String)
  | illegalFormats (taskId : String) (path : String) (bad : List String)
deriving DecidableEq, Repr

inductive ScriptError where
  | taskVerification (msg : String)
  | taskVerificationBatch (messages : List Violation)
  | signingServer (msg : String)
  | signingScript (msg : String)
deriving DecidableEq, Repr

/-! ## POSIX path helpers (`os.path`) -/

/-- `os.path.basename` on POSIX: the part of the path after the last slash. -/
def basename (p : String) : String :=
  String.mk ((p.data.reverse.takeWhile (fun c => c != '/')).reverse)

/-- `str.startswith`. -/
def startsWith (s pat : String) : Bool :=
  pat.data.isPrefixOf s.data

/-- `str.endswith`. -/
def endsWith (s pat : String) : Bool :=
  pat.data.isSuffixOf s.data

/-- `os.path.splitext(p)[1]` on POSIX: the extension including the dot.
It is the suffix of the basename starting at its last dot, provided some
character strictly before that dot in the basename is not itself a dot
(so `".bashrc"` has extension `""`). -/
def extension (p : String) : String :=
  let b := (basename p).data
  let after := b.reverse.takeWhile (fun c => c != '.')
  if after.length = b.length then ""
  else
    let pre := b.take (b.length - after.length - 1)
    if pre.any (fun c => c != '.') then String.mk ('.' :: after.reverse) else ""

/-- `os.path.splitext(p)[0]`: the path with its extension removed. -/
def fileBase (p : String) : String :=
  String.mk (p.data.take (p.data.length - (extension p).data.length))

/-- Binary `os.path.join` on POSIX. -/
def joinPath (a b : String) : String :=
  if startsWith b "/" then b
  else if a = "" then b
  else if endsWith a "/" then a ++ b
  else a ++ "/" ++ b

/-! ## `fnmatch` (POSIX, case-sensitive)

The denylist patterns used by `_should_sign_windows` contain only literal
characters and `*`; we also support `?`.  `*` matches any (possibly empty)
sequence, `?` matches exactly one character, anything else matches itself,
and the whole name must be consumed (fnmatch anchors at both ends). -/

def globMatch : List Char → List Char → Bool
  | [], n => n.isEmpty
  | p :: ps, n =>
    if p == '*' then n.tails.any (fun t => globMatch ps t)
    else
      match n with
      | [] => false
      | c :: cs => (p == '?' || p == c) && globMatch ps cs

/-- `fnmatch.fnmatch(name, pat)` for the pattern subset above. -/
def fnmatch (nm pat : String) : Bool :=
  globMatch pat.data nm.data

/-! ## `task.py`: `_sort_formats` -/

/-- `_sort_formats` from `task.py`: for each of `widevine`,
`widevine_blessed`, `gpg` in that order, if it is in the list, remove its
first occurrence (`list.remove`) and append it at the end. -/
def _sort_formats (formats : List String) : List String :=
  ["widevine", "widevine_blessed", "gpg"].foldl
    (fun fs fmt => if fmt ∈ fs then fs.erase fmt ++ [fmt] else fs) formats

/-- One pass of `_sort_formats`: move the first occurrence of `fmt` (if any)
to the end. -/
def moveToEnd (fmt : String) (fs : List String) : List String :=
  if fmt ∈ fs then fs.erase fmt ++ [fmt] else fs

theorem sort_formats_eq_moves (formats : List String) :
    _sort_formats formats =
      moveToEnd "gpg" (moveToEnd "widevine_blessed" (moveToEnd "widevine" formats)) := by
  simp [_sort_formats, moveToEnd, List.foldl]

theorem moveToEnd_perm (fmt : String) (fs : List String) :
    (moveToEnd fmt fs).Perm fs := by
  unfold moveToEnd
  split
  · next h =>
    exact (List.perm_append_singleton _ _).trans (List.perm_cons_erase h).symm
  · exact List.Perm.refl fs

theorem erase_eq_filter_of_count_le_one (a : String) (l : List String)
    (h : l.count a ≤ 1) : l.erase a = l.filter (fun x => x != a) := by
  induction l with
  | nil => rfl
  | cons b bs ih =>
    by_cases hb : b = a
    · subst hb
      rw [List.erase_cons_head]
      have hcount : bs.count b = 0 := by
        rw [List.count_cons_self] at h
        omega
      have hnotmem : b ∉ bs := by
        rw [← List.count_pos_iff]
        omega
      have : bs.filter (fun x => x != b) = bs := by
        apply List.filter_eq_self.mpr
        intro x hx
        simp only [bne_iff_ne, ne_eq, decide_eq_true_eq]
        intro hxa
        exact hnotmem (hxa ▸ hx)
      simp [List.filter_cons, this]
    · rw [List.erase_cons_tail]
      · have hcount : bs.count a ≤ 1 := by
          rw [List.count_cons_of_ne (Ne.symm hb)] at h
          exact h
        rw [ih hcount, List.filter_cons]
        simp [hb]
      · simp [hb]

theorem moveToEnd_eq_filter (fmt : String) (fs : List String)
    (h : fs.count fmt ≤ 1) :
    moveToEnd fmt fs =
      fs.filter (fun x => x != fmt) ++ (if fmt ∈ fs then [fmt] else []) := by
  unfold moveToEnd
  by_cases hm : fmt ∈ fs
  · simp only [hm, if_true]
    rw [erase_eq_filter_of_count_le_one fmt fs h]
  · simp only [hm, if_false]
    rw [List.filter_eq_self.mpr, List.append_nil]
    intro x hx
    simp only [bne_iff_ne, ne_eq, decide_eq_true_eq]
    intro hxa
    exact hm (hxa ▸ hx)

/-- The result of one `moveToEnd` pass, characterized: counts at most one
occurrence of `fmt`, so `erase` removes every occurrence. -/
theorem sort_formats_characterization (formats : List String)
    (hw : formats.count "widevine" ≤ 1)
    (hwb : formats.count "widevine_blessed" ≤ 1)
    (hg : formats.count "gpg" ≤ 1) :
    _sort_formats formats =
      formats.filter
          (fun f => f != "widevine" && f != "widevine_blessed" && f != "gpg") ++
        (if "widevine" ∈ formats then ["widevine"] else []) ++
        (if "widevine_blessed" ∈ formats then ["widevine_blessed"] else []) ++
        (if "gpg" ∈ formats then ["gpg"] else []) := by
  have c1 : (moveToEnd "widevine" formats).count "widevine_blessed" ≤ 1 := by
    rw [(moveToEnd_perm "widevine" formats).count_eq]; exact hwb
  have c2 : (moveToEnd "widevine_blessed" (moveToEnd "widevine" formats)).count "gpg" ≤ 1 := by
    rw [(moveToEnd_perm _ _).count_eq, (moveToEnd_perm _ _).count_eq]; exact hg
  rw [sort_formats_eq_moves,
      moveToEnd_eq_filter "gpg" _ c2,
      moveToEnd_eq_filter "widevine_blessed" _ c1,
      moveToEnd_eq_filter "widevine" _ hw]
  by_cases hwm : "widevine" ∈ formats <;>
    by_cases hwbm : "widevine_blessed" ∈ formats <;>
      by_cases hgm : "gpg" ∈ formats <;>
        simp [hwm, hwbm, hgm, List.filter_append, List.filter_filter,
              List.mem_filter, List.mem_append, Bool.and_comm, Bool.and_assoc,
              Bool.and_left_comm]

/-- C1 (amended): for every format list in which each of `widevine`,
`widevine_blessed` and `gpg` occurs at most once, `_sort_formats` keeps the
relative order of the other formats first, then places the Widevine
variants, then `gpg` last whenever present; in particular
`[widevine, jar, gpg]` normalizes to `[jar, widevine, gpg]`. -/
theorem c1_sort_formats_reorder (formats : List String)
    (hw : formats.count "widevine" ≤ 1)
    (hwb : formats.count "widevine_blessed" ≤ 1)
    (hg : formats.count "gpg" ≤ 1) :
    _sort_formats formats =
      formats.filter
          (fun f => f != "widevine" && f != "widevine_blessed" && f != "gpg") ++
        (if "widevine" ∈ formats then ["widevine"] else []) ++
        (if "widevine_blessed" ∈ formats then ["widevine_blessed"] else []) ++
        (if "gpg" ∈ formats then ["gpg"] else []) ∧
    _sort_formats ["widevine", "jar", "gpg"] = ["jar", "widevine", "gpg"] :=
  ⟨sort_formats_characterization formats hw hwb hg, by decide⟩

/-- C1 witness: the reordering theorem applied at the spec's own example. -/
theorem c1_sort_formats_reorder_witness :
    ((["widevine", "jar", "gpg"] : List String).count "widevine" ≤ 1 ∧
     (["widevine", "jar", "gpg"] : List String).count "widevine_blessed" ≤ 1 ∧
     (["widevine", "jar", "gpg"] : List String).count "gpg" ≤ 1) ∧
    _sort_formats ["widevine", "jar", "gpg"] = ["jar", "widevine", "gpg"] :=
  ⟨⟨by decide, by decide, by decide⟩,
    (c1_sort_formats_reorder ["widevine", "jar", "gpg"]
      (by decide) (by decide) (by decide)).2⟩

/-- C1 counterexample: on a list where `widevine` occurs twice, only the
first occurrence is moved, so a `widevine` remains *before* the
non-reordered format `jar`, contradicting the claim for arbitrary lists
(the only output satisfying the claimed shape would be
`[jar, widevine, widevine]`). -/
theorem c1_sort_formats_counterexample :
    _sort_formats ["widevine", "widevine", "jar"] = ["widevine", "jar", "widevine"] ∧
    _sort_formats ["widevine", "widevine", "jar"] ≠ ["jar", "widevine", "widevine"] := by
  constructor
  · decide
  · decide

/-! ## `sign.py`: `task_cert_type` -/

/-- The scope marker for certificate-tier scopes. -/
def certScopeStart : String := "project:releng:signing:cert:"

/-- `task_cert_type` from `sign.py`: collect the scopes starting with the
certificate marker; exactly one must be present, otherwise raise
`TaskVerificationError`; return that scope. A task is modelled by its
`scopes` list, the only field the function reads. -/
def task_cert_type (scopes : List String) : Except ScriptError String :=
  match scopes.filter (fun s => startsWith s certScopeStart) with
  | [c] => .ok c
  | _ => .error (.taskVerification "Only one certificate type can be used")

/-- C2: `task_cert_type` returns a scope `s` exactly when `s` is the single
certificate-tier scope of the task; with zero or several such scopes it
fails with a `TaskVerificationError`, and it never returns anything else. -/
theorem c2_task_cert_type_unique (scopes : List String) :
    (∀ s, task_cert_type scopes = .ok s ↔
      scopes.filter (fun x => startsWith x certScopeStart) = [s]) ∧
    ((scopes.filter (fun x => startsWith x certScopeStart)).length ≠ 1 →
      task_cert_type scopes =
        .error (.taskVerification "Only one certificate type can be used")) := by
  unfold task_cert_type
  constructor
  · intro s
    cases h : scopes.filter (fun x => startsWith x certScopeStart) with
    | nil => simp
    | cons c cs =>
      cases cs with
      | nil => simp
      | cons c2 cs2 => simp
  · intro hlen
    cases h : scopes.filter (fun x => startsWith x certScopeStart) with
    | nil => simp
    | cons c cs =>
      cases cs with
      | nil => rw [h] at hlen; simp at hlen
      | cons c2 cs2 => simp

/-- C2 witness: a task with a single cert scope among others yields that
scope; dropping or doubling it yields the verification error. -/
theorem c2_task_cert_type_unique_witness :
    task_cert_type ["project:releng:signing:cert:release-signing",
                    "project:releng:signing:format:gpg"] =
      .ok "project:releng:signing:cert:release-signing" ∧
    ((["project:releng:signing:format:gpg"] : List String).filter
        (fun x => startsWith x certScopeStart)).length ≠ 1 ∧
    task_cert_type ["project:releng:signing:format:gpg"] =
      .error (.taskVerification "Only one certificate type can be used") := by
  refine ⟨?_, by decide, ?_⟩
  · exact (c2_task_cert_type_unique _).1 _ |>.mpr (by decide)
  · exact (c2_task_cert_type_unique ["project:releng:signing:format:gpg"]).2 (by decide)

/-! ## `sign.py`: `get_suitable_signing_servers` -/

/-- A signing server entry from `signing_server_config`: network address,
credential pair, and supported signing formats. -/
structure SigningServer where
  server : String
  user : String
  password : String
  formats : List String
deriving DecidableEq, Repr

/-- Does the requested-format set intersect the server's format set?
This is the truthiness of `set(signing_formats) & set(s.formats)`. -/
def serverSupports (signing_formats : List String) (s : SigningServer) : Bool :=
  signing_formats.any (fun f => s.formats.contains f)

/-- `get_suitable_signing_servers` from `sign.py`. The roster
(`context.signing_servers`, a dict keyed by cert type) is modelled as an
association list; a missing key (Python `KeyError`) is `none`. -/
def get_suitable_signing_servers (signing_servers : List (String × List SigningServer))
    (cert_type : String) (signing_formats : List String) :
    Option (List SigningServer) :=
  (signing_servers.lookup cert_type).map
    (fun entry => entry.filter (serverSupports signing_formats))

/-- C3: for a roster whose entry for the tier is `entry`, backend selection
returns exactly the servers of `entry` whose format set intersects the
requested formats, in roster order (a sublist of `entry`); if no server's
formats intersect, the result is empty. -/
theorem c3_get_suitable_signing_servers_filter
    (signing_servers : List (String × List SigningServer))
    (cert_type : String) (signing_formats : List String)
    (entry : List SigningServer)
    (h : signing_servers.lookup cert_type = some entry) :
    get_suitable_signing_servers signing_servers cert_type signing_formats =
      some (entry.filter (serverSupports signing_formats)) ∧
    (entry.filter (serverSupports signing_formats)).Sublist entry ∧
    (∀ s, s ∈ entry.filter (serverSupports signing_formats) ↔
      s ∈ entry ∧ ∃ f ∈ signing_formats, f ∈ s.formats) ∧
    ((∀ s ∈ entry, ¬∃ f ∈ signing_formats, f ∈ s.formats) →
      entry.filter (serverSupports signing_formats) = []) := by
  refine ⟨by simp [get_suitable_signing_servers, h], List.filter_sublist _, ?_, ?_⟩
  · intro s
    simp [List.mem_filter, serverSupports, List.any_eq_true]
  · intro hnone
    rw [List.filter_eq_nil_iff]
    intro s hs
    have h2 := hnone s hs
    push_neg at h2
    simp [serverSupports, List.any_eq_true]
    exact h2

/-- A two-server roster used to witness backend selection. -/
def rosterC3 : List (String × List SigningServer) :=
  [("dep-signing",
    [SigningServer.mk "sign1.example.net" "u1" "p1" ["gpg", "jar"],
     SigningServer.mk "sign2.example.net" "u2" "p2" ["macapp"]])]

def entryC3 : List SigningServer :=
  [SigningServer.mk "sign1.example.net" "u1" "p1" ["gpg", "jar"],
   SigningServer.mk "sign2.example.net" "u2" "p2" ["macapp"]]

/-- C3 witness: on a concrete roster, selection keeps exactly the server
supporting a requested format. -/
theorem c3_get_suitable_signing_servers_filter_witness :
    rosterC3.lookup "dep-signing" = some entryC3 ∧
    get_suitable_signing_servers rosterC3 "dep-signing" ["gpg"] =
      some (entryC3.filter (serverSupports ["gpg"])) ∧
    entryC3.filter (serverSupports ["gpg"]) =
      [SigningServer.mk "sign1.example.net" "u1" "p1" ["gpg", "jar"]] :=
  ⟨by decide,
   (c3_get_suitable_signing_servers_filter rosterC3 "dep-signing" ["gpg"]
      entryC3 (by decide)).1,
   by decide⟩

/-! ## `sign.py`: Widevine classification (`_should_sign_widevine`) -/

/-- Blessed files call the other widevine files. -/
def _WIDEVINE_BLESSED_FILENAMES : List String :=
  ["plugin-container", "plugin-container.exe"]

/-- These are other files that need to be widevine-signed. -/
def _WIDEVINE_NONBLESSED_FILENAMES : List String :=
  ["firefox", "firefox-bin", "firefox.exe",
   "libxul.so", "XUL", "xul.dll",
   "clearkey.dll", "libclearkey.dylib", "libclearkey.so"]

/-- The `fmt` bound in the loop body of `_should_sign_widevine`:
`widevine_blessed` if the base filename is blessed, else `widevine` if it
is non-blessed, else none. -/
def widevineFmt (filename : String) : Option String :=
  let base_filename := basename filename
  if _WIDEVINE_BLESSED_FILENAMES.contains base_filename then some "widevine_blessed"
  else if _WIDEVINE_NONBLESSED_FILENAMES.contains base_filename then some "widevine"
  else none

/-- `_should_sign_widevine` from `sign.py`: a dict (modelled as an
association list in insertion order) of path → signing format for each
member to be signed; a member with a `.sig` sibling in the same listing is
skipped. -/
def _should_sign_widevine (file_list : List String) : List (String × String) :=
  file_list.filterMap (fun filename =>
    match widevineFmt filename with
    | some fmt =>
      if file_list.contains (filename ++ ".sig") then none else some (filename, fmt)
    | none => none)

theorem mem_should_sign_widevine (file_list : List String) (m fmt : String) :
    (m, fmt) ∈ _should_sign_widevine file_list ↔
      m ∈ file_list ∧ (m ++ ".sig") ∉ file_list ∧ widevineFmt m = some fmt := by
  unfold _should_sign_widevine
  rw [List.mem_filterMap]
  constructor
  · rintro ⟨a, ha, hfa⟩
    cases hw : widevineFmt a with
    | none => rw [hw] at hfa; simp at hfa
    | some f =>
      rw [hw] at hfa
      by_cases hsig : (a ++ ".sig") ∈ file_list
      · simp [hsig] at hfa
      · simp [hsig] at hfa
        obtain ⟨rfl, rfl⟩ := hfa
        exact ⟨ha, hsig, hw⟩
  · rintro ⟨hm, hsig, hw⟩
    refine ⟨m, hm, ?_⟩
    rw [hw]
    simp [hsig]

theorem widevineFmt_blessed_iff (m : String) :
    widevineFmt m = some "widevine_blessed" ↔
      basename m ∈ _WIDEVINE_BLESSED_FILENAMES := by
  unfold widevineFmt
  by_cases h1 : basename m ∈ _WIDEVINE_BLESSED_FILENAMES
  · simp [h1]
  · simp [h1]

theorem widevineFmt_plain_iff (m : String) :
    widevineFmt m = some "widevine" ↔
      basename m ∈ _WIDEVINE_NONBLESSED_FILENAMES := by
  by_cases h1 : basename m ∈ _WIDEVINE_BLESSED_FILENAMES
  · have h2 : basename m ∉ _WIDEVINE_NONBLESSED_FILENAMES := by
      simp [_WIDEVINE_BLESSED_FILENAMES] at h1
      rcases h1 with h | h <;> simp [h, _WIDEVINE_NONBLESSED_FILENAMES]
    simp [widevineFmt, h1, h2]
  · by_cases h2 : basename m ∈ _WIDEVINE_NONBLESSED_FILENAMES <;>
      simp [widevineFmt, h1, h2]

/-- C4 (amended): for a member with no `.sig` sibling in the listing,
classification yields the blessed sub-format exactly when the base
filename is in the blessed set and the plain sub-format exactly when it is
in the non-blessed set (base filename only, never the full path); members
in neither set are absent; and the spec's example list classifies as
claimed. -/
theorem c4_widevine_classification (file_list : List String) (m : String)
    (hm : m ∈ file_list) (hsig : (m ++ ".sig") ∉ file_list) :
    ((m, "widevine_blessed") ∈ _should_sign_widevine file_list ↔
      basename m ∈ _WIDEVINE_BLESSED_FILENAMES) ∧
    ((m, "widevine") ∈ _should_sign_widevine file_list ↔
      basename m ∈ _WIDEVINE_NONBLESSED_FILENAMES) ∧
    (basename m ∉ _WIDEVINE_BLESSED_FILENAMES →
      basename m ∉ _WIDEVINE_NONBLESSED_FILENAMES →
      ∀ fmt, (m, fmt) ∉ _should_sign_widevine file_list) ∧
    _should_sign_widevine ["firefox", "plugin-container", "unrelated.txt"] =
      [("firefox", "widevine"), ("plugin-container", "widevine_blessed")] := by
  refine ⟨?_, ?_, ?_, by decide⟩
  · rw [mem_should_sign_widevine]
    simp [hm, hsig, widevineFmt_blessed_iff]
  · rw [mem_should_sign_widevine]
    simp [hm, hsig, widevineFmt_plain_iff]
  · intro hb hnb fmt
    rw [mem_should_sign_widevine]
    rintro ⟨-, -, hw⟩
    unfold widevineFmt at hw
    simp [hb, hnb] at hw

/-- C4 witness: the classification theorem applied to the spec's example
zip listing, at the member `firefox`. -/
theorem c4_widevine_classification_witness :
    ("firefox" ∈ (["firefox", "plugin-container", "unrelated.txt"] : List String) ∧
     ("firefox" ++ ".sig") ∉
       (["firefox", "plugin-container", "unrelated.txt"] : List String)) ∧
    (("firefox", "widevine") ∈
        _should_sign_widevine ["firefox", "plugin-container", "unrelated.txt"] ↔
      basename "firefox" ∈ _WIDEVINE_NONBLESSED_FILENAMES) ∧
    _should_sign_widevine ["firefox", "plugin-container", "unrelated.txt"] =
      [("firefox", "widevine"), ("plugin-container", "widevine_blessed")] :=
  ⟨⟨by decide, by decide⟩,
   (c4_widevine_classification ["firefox", "plugin-container", "unrelated.txt"]
      "firefox" (by decide) (by decide)).2.1,
   (c4_widevine_classification ["firefox", "plugin-container", "unrelated.txt"]
      "firefox" (by decide) (by decide)).2.2.2⟩

/-- C4 counterexample: in a listing where the blessed member
`plugin-container` is accompanied by its `.sig` sibling, the member is
*not* mapped to the blessed sub-format even though its base filename is in
the blessed set, so the claim's "exactly when" fails for arbitrary member
lists. -/
theorem c4_widevine_classification_counterexample :
    _should_sign_widevine ["plugin-container", "plugin-container.sig"] = [] ∧
    "plugin-container" ∈
      (["plugin-container", "plugin-container.sig"] : List String) ∧
    basename "plugin-container" ∈ _WIDEVINE_BLESSED_FILENAMES := by
  refine ⟨by decide, by decide, by decide⟩

/-- C5: for every listing, a member with a `.sig` sibling in the same
listing is never classified; and if every Widevine-signable member of the
listing has its `.sig` sibling there, the whole classification is empty. -/
theorem c5_sig_sibling_idempotence (file_list : List String) :
    ((∀ m ∈ file_list, widevineFmt m ≠ none → (m ++ ".sig") ∈ file_list) →
      _should_sign_widevine file_list = []) ∧
    ∀ m fmt, (m ++ ".sig") ∈ file_list →
      (m, fmt) ∉ _should_sign_widevine file_list := by
  constructor
  · intro h
    unfold _should_sign_widevine
    rw [List.filterMap_eq_nil_iff]
    intro a ha
    cases hw : widevineFmt a with
    | none => simp
    | some f =>
      have hsig := h a ha (by rw [hw]; simp)
      simp [hsig]
  · intro m fmt hsig
    rw [mem_should_sign_widevine]
    rintro ⟨-, hns, -⟩
    exact hns hsig

/-- C5 witness: the idempotence theorem applied to a fully-signed listing
(classification empty), and the general guard applied in a listing that is
*not* fully signed: `libxul.so` lacks a sibling there, yet `firefox`, which
has one, is still excluded. -/
theorem c5_sig_sibling_idempotence_witness :
    ((∀ m ∈ (["firefox", "firefox.sig"] : List String), widevineFmt m ≠ none →
        (m ++ ".sig") ∈ (["firefox", "firefox.sig"] : List String)) ∧
      _should_sign_widevine ["firefox", "firefox.sig"] = []) ∧
    (("firefox" ++ ".sig") ∈
        (["firefox", "libxul.so", "firefox.sig"] : List String) ∧
      ("firefox", "widevine") ∉
        _should_sign_widevine ["firefox", "libxul.so", "firefox.sig"] ∧
      _should_sign_widevine ["firefox", "libxul.so", "firefox.sig"] =
        [("libxul.so", "widevine")]) :=
  ⟨⟨by decide,
    (c5_sig_sibling_idempotence ["firefox", "firefox.sig"]).1 (by decide)⟩,
   by decide,
   (c5_sig_sibling_idempotence ["firefox", "libxul.so", "firefox.sig"]).2
     "firefox" "widevine" (by decide),
   by decide⟩

/-! ## `sign.py`: `_should_sign_windows` -/

/-- The denylist of vendor-signed libraries (`_dont_sign`, a local of
`_should_sign_windows`, lifted to the top level so theorems can name it).
These should already be signed by Microsoft. -/
def _dont_sign : List String :=
  ["D3DCompiler_42.dll", "d3dx9_42.dll",
   "D3DCompiler_43.dll", "d3dx9_43.dll",
   "msvc*.dll"]

/-- `_should_sign_windows` from `sign.py`: `True` iff the extension is
`.dll` or `.exe` and the base name matches none of the denylist globs. -/
def _should_sign_windows (filename : String) : Bool :=
  let ext := extension filename
  let b := basename filename
  (ext == ".dll" || ext == ".exe") && !(_dont_sign.any (fun p => fnmatch b p))

/-- C6: the Windows signability check accepts exactly the `.dll`/`.exe`
files whose base name matches no denylist glob; in particular `foo.dll`
and `setup.exe` are signable while `D3DCompiler_42.dll`, `msvc140.dll`
(via the `msvc*.dll` glob) and `readme.txt` are not. -/
theorem c6_should_sign_windows_spec (filename : String) :
    (_should_sign_windows filename = true ↔
      (extension filename = ".dll" ∨ extension filename = ".exe") ∧
        ∀ p ∈ _dont_sign, fnmatch (basename filename) p = false) ∧
    _should_sign_windows "foo.dll" = true ∧
    _should_sign_windows "setup.exe" = true ∧
    _should_sign_windows "D3DCompiler_42.dll" = false ∧
    _should_sign_windows "msvc140.dll" = false ∧
    fnmatch (basename "msvc140.dll") "msvc*.dll" = true ∧
    _should_sign_windows "readme.txt" = false := by
  refine ⟨?_, by decide, by decide, by decide, by decide, by decide, by decide⟩
  unfold _should_sign_windows
  simp only [Bool.and_eq_true, Bool.or_eq_true, beq_iff_eq, Bool.not_eq_true',
             List.any_eq_false]
  constructor
  · rintro ⟨hext, hp⟩
    exact ⟨hext, fun p hps => by simpa using hp p hps⟩
  · rintro ⟨hext, hp⟩
    exact ⟨hext, fun p hps => by simpa using hp p hps⟩

/-! ## `sign.py`: `sign_widevine` dispatch -/

/-- Which helper `sign_widevine` dispatches to. -/
inductive WidevineStrategy where
  | zip
  | tar
deriving DecidableEq, Repr

/-- The container dispatch of `sign_widevine` from `sign.py`: the
`ext_to_fn` dict is walked in insertion order (`.zip`, `.tar.bz2`,
`.tar.gz`) and the first suffix match selects the helper; no match raises
`SigningScriptError` before any archive is opened.  Only the dispatch
decision is modelled; the helpers themselves extract and repack. -/
def sign_widevine (orig_path : String) : Except ScriptError WidevineStrategy :=
  if endsWith orig_path ".zip" then .ok .zip
  else if endsWith orig_path ".tar.bz2" then .ok .tar
  else if endsWith orig_path ".tar.gz" then .ok .tar
  else .error (.signingScript ("Unknown widevine file format for " ++ orig_path))

/-- C7: Widevine signing dispatches to the zip helper for `.zip` paths and
to the tar helper for `.tar.gz`/`.tar.bz2` paths, and for any other path
it fails with a `SigningScriptError` (before any extraction, since the
decision depends only on the suffix); in particular `foo.unknown` fails. -/
theorem c7_sign_widevine_dispatch (orig_path : String) :
    (sign_widevine orig_path = .ok .zip ↔ endsWith orig_path ".zip" = true) ∧
    (sign_widevine orig_path = .ok .tar ↔
      (endsWith orig_path ".zip" = false ∧
        (endsWith orig_path ".tar.bz2" = true ∨ endsWith orig_path ".tar.gz" = true))) ∧
    (endsWith orig_path ".zip" = false → endsWith orig_path ".tar.bz2" = false →
      endsWith orig_path ".tar.gz" = false →
      sign_widevine orig_path =
        .error (.signingScript ("Unknown widevine file format for " ++ orig_path))) ∧
    sign_widevine "foo.unknown" =
      .error (.signingScript "Unknown widevine file format for foo.unknown") := by
  refine ⟨?_, ?_, ?_, by decide⟩
  · unfold sign_widevine
    by_cases h1 : endsWith orig_path ".zip" = true <;>
      by_cases h2 : endsWith orig_path ".tar.bz2" = true <;>
        by_cases h3 : endsWith orig_path ".tar.gz" = true <;>
          simp_all
  · unfold sign_widevine
    by_cases h1 : endsWith orig_path ".zip" = true <;>
      by_cases h2 : endsWith orig_path ".tar.bz2" = true <;>
        by_cases h3 : endsWith orig_path ".tar.gz" = true <;>
          simp_all
  · intro h1 h2 h3
    unfold sign_widevine
    simp [h1, h2, h3]

/-- C7 witness: the dispatch theorem applied at `foo.unknown`, whose name
ends in none of the three supported suffixes. -/
theorem c7_sign_widevine_dispatch_witness :
    (endsWith "foo.unknown" ".zip" = false ∧
     endsWith "foo.unknown" ".tar.bz2" = false ∧
     endsWith "foo.unknown" ".tar.gz" = false) ∧
    sign_widevine "foo.unknown" =
      .error (.signingScript "Unknown widevine file format for foo.unknown") :=
  ⟨⟨by decide, by decide, by decide⟩,
   (c7_sign_widevine_dispatch "foo.unknown").2.2.1 (by decide) (by decide) (by decide)⟩

/-! ## `task.py`: `build_filelist_dict` -/

/-- One entry of `task.payload.upstreamArtifacts`. -/
structure Artifact where
  taskId : String
  paths : List String
  formats : List String
deriving DecidableEq, Repr

/-- `os.path.join(work_dir, 'cot', taskId, path)`. -/
def artifactFullPath (work_dir taskId path : String) : String :=
  joinPath (joinPath (joinPath work_dir "cot") taskId) path

/-- `formats_set.difference(all_signing_formats_set)` rendered as a
duplicate-free list. -/
def illegalFormatsOf (all_signing_formats : List String) (a : Artifact) : List String :=
  (a.formats.filter (fun f => !(all_signing_formats.contains f))).eraseDups

/-- The messages appended for one `path` of one artifact: a missing-path
message if the resolved path is not on disk, then an illegal-formats
message if the artifact's formats are not a subset of the allowed
superset (the format check sits inside the path loop in the source). -/
def pathMessages (onDisk : String → Bool) (work_dir : String)
    (all_signing_formats : List String) (a : Artifact) (path : String) :
    List Violation :=
  (if onDisk (artifactFullPath work_dir a.taskId path) then []
   else [Violation.missingPath (artifactFullPath work_dir a.taskId path)]) ++
  (if a.formats.any (fun f => !(all_signing_formats.contains f)) then
     [Violation.illegalFormats a.taskId path (illegalFormatsOf all_signing_formats a)]
   else [])

/-- `build_filelist_dict` from `task.py`: walk every artifact and every
path, collect all violations, and raise one `TaskVerificationError` with
all of them if any were found; otherwise return the dict (modelled as an
association list in insertion order) of relative path to
(full path, sorted formats). Disk state is passed in as `onDisk`. -/
def build_filelist_dict (onDisk : String → Bool) (work_dir : String)
    (all_signing_formats : List String) (upstreamArtifacts : List Artifact) :
    Except ScriptError (List (String × String × List String)) :=
  let messages := upstreamArtifacts.flatMap
    (fun a => a.paths.flatMap (pathMessages onDisk work_dir all_signing_formats a))
  let filelist_dict := upstreamArtifacts.flatMap (fun a =>
    a.paths.map (fun p =>
      (p, artifactFullPath work_dir a.taskId p, _sort_formats a.formats)))
  if messages.isEmpty then .ok filelist_dict
  else .error (.taskVerificationBatch messages)

theorem pathMessages_eq_nil_iff (onDisk : String → Bool) (work_dir : String)
    (all_signing_formats : List String) (a : Artifact) (p : String) :
    pathMessages onDisk work_dir all_signing_formats a p = [] ↔
      onDisk (artifactFullPath work_dir a.taskId p) = true ∧
        ∀ f ∈ a.formats, f ∈ all_signing_formats := by
  unfold pathMessages
  by_cases h1 : onDisk (artifactFullPath work_dir a.taskId p) = true <;>
    by_cases h2 : a.formats.any (fun f => !(all_signing_formats.contains f)) = true <;>
      simp_all

/-- C8 (amended): `build_filelist_dict` checks existence of every artifact
path and, once per path, the artifact's format list against the allowed
superset (so an artifact with no paths is never format-checked); it fails
iff some artifact-path pair has a violation, the single raised error lists
every missing path and every illegal-format pair (no fail-fast), and with
no violations it returns the mapping of relative path to full path and
sorted formats. -/
theorem c8_build_filelist_dict_batched (onDisk : String → Bool) (work_dir : String)
    (all_signing_formats : List String) (artifacts : List Artifact) :
    ((∃ e, build_filelist_dict onDisk work_dir all_signing_formats artifacts = .error e) ↔
      ∃ a ∈ artifacts, ∃ p ∈ a.paths,
        onDisk (artifactFullPath work_dir a.taskId p) = false ∨
          ∃ f ∈ a.formats, f ∉ all_signing_formats) ∧
    (∀ msgs, build_filelist_dict onDisk work_dir all_signing_formats artifacts =
        .error (.taskVerificationBatch msgs) →
      (∀ a ∈ artifacts, ∀ p ∈ a.paths,
        onDisk (artifactFullPath work_dir a.taskId p) = false →
          Violation.missingPath (artifactFullPath work_dir a.taskId p) ∈ msgs) ∧
      (∀ a ∈ artifacts, ∀ p ∈ a.paths,
        (∃ f ∈ a.formats, f ∉ all_signing_formats) →
          Violation.illegalFormats a.taskId p
            (illegalFormatsOf all_signing_formats a) ∈ msgs)) ∧
    ((∀ a ∈ artifacts, ∀ p ∈ a.paths,
        onDisk (artifactFullPath work_dir a.taskId p) = true ∧
          ∀ f ∈ a.formats, f ∈ all_signing_formats) →
      build_filelist_dict onDisk work_dir all_signing_formats artifacts =
        .ok (artifacts.flatMap (fun a => a.paths.map (fun p =>
          (p, artifactFullPath work_dir a.taskId p, _sort_formats a.formats))))) := by
  simp only [build_filelist_dict]
  set M := artifacts.flatMap
    (fun a => a.paths.flatMap (pathMessages onDisk work_dir all_signing_formats a))
    with hMdef
  refine ⟨?_, ?_, ?_⟩
  · constructor
    · rintro ⟨e, he⟩
      split at he
      · exact absurd he (by simp)
      · next hne =>
        have hMne : M ≠ [] := by simpa [List.isEmpty_iff] using hne
        obtain ⟨v, hv⟩ := List.exists_mem_of_ne_nil _ hMne
        rw [hMdef, List.mem_flatMap] at hv
        obtain ⟨a, ha, hv⟩ := hv
        rw [List.mem_flatMap] at hv
        obtain ⟨p, hp, hv⟩ := hv
        refine ⟨a, ha, p, hp, ?_⟩
        by_contra hcon
        push_neg at hcon
        obtain ⟨hdisk, hfmt⟩ := hcon
        have hnil : pathMessages onDisk work_dir all_signing_formats a p = [] :=
          (pathMessages_eq_nil_iff _ _ _ _ _).mpr
            ⟨by simpa using hdisk, hfmt⟩
        rw [hnil] at hv
        simp at hv
    · rintro ⟨a, ha, p, hp, hviol⟩
      have hvmem : ∃ v, v ∈ pathMessages onDisk work_dir all_signing_formats a p := by
        rcases hviol with hdisk | hfmt
        · exact ⟨Violation.missingPath (artifactFullPath work_dir a.taskId p),
            by simp [pathMessages, hdisk]⟩
        · have hany : a.formats.any (fun f => !(all_signing_formats.contains f)) = true := by
            rw [List.any_eq_true]
            obtain ⟨f, hf, hnf⟩ := hfmt
            exact ⟨f, hf, by simpa using hnf⟩
          refine ⟨Violation.illegalFormats a.taskId p
              (illegalFormatsOf all_signing_formats a), ?_⟩
          simp [pathMessages, hany]
          exact hfmt
      obtain ⟨v, hv⟩ := hvmem
      have hvM : v ∈ M := by
        rw [hMdef, List.mem_flatMap]
        exact ⟨a, ha, List.mem_flatMap.mpr ⟨p, hp, hv⟩⟩
      have hne : ¬M.isEmpty = true := by
        simp only [List.isEmpty_iff]
        exact List.ne_nil_of_mem hvM
      exact ⟨.taskVerificationBatch M, by simp [hne]⟩
  · intro msgs hmsgs
    split at hmsgs
    · exact absurd hmsgs (by simp)
    · next hne =>
      have hMeq : msgs = M := by
        injection hmsgs with h1
        injection h1 with h2
        exact h2.symm
      constructor
      · intro a ha p hp hdisk
        rw [hMeq, hMdef, List.mem_flatMap]
        refine ⟨a, ha, List.mem_flatMap.mpr ⟨p, hp, ?_⟩⟩
        simp [pathMessages, hdisk]
      · intro a ha p hp hfmt
        have hany : a.formats.any (fun f => !(all_signing_formats.contains f)) = true := by
          rw [List.any_eq_true]
          obtain ⟨f, hf, hnf⟩ := hfmt
          exact ⟨f, hf, by simpa using hnf⟩
        rw [hMeq, hMdef, List.mem_flatMap]
        refine ⟨a, ha, List.mem_flatMap.mpr ⟨p, hp, ?_⟩⟩
        simp [pathMessages, hany]
        exact hfmt
  · intro hclean
    have hMnil : M = [] := by
      rw [hMdef, List.flatMap_eq_nil_iff]
      intro a ha
      rw [List.flatMap_eq_nil_iff]
      intro p hp
      exact (pathMessages_eq_nil_iff _ _ _ _ _).mpr (hclean a ha p hp)
    simp [hMnil]

/-- C8 counterexample: an artifact with an illegal format but an empty
`paths` list is never format-checked (the check sits inside the path
loop), so `build_filelist_dict` succeeds although the artifact's format
list is not included in the allowed superset. -/
theorem c8_build_filelist_dict_counterexample :
    build_filelist_dict (fun _ => true) "work"
        [] [Artifact.mk "task1" [] ["evil_format"]] = .ok [] ∧
    "evil_format" ∈ (Artifact.mk "task1" [] ["evil_format"]).formats ∧
    "evil_format" ∉ ([] : List String) :=
  ⟨by decide, by decide, by decide⟩

/-- C8 witness: the batching theorem applied to a clean one-artifact task,
returning the mapping with the resolved full path and sorted formats. -/
theorem c8_build_filelist_dict_batched_witness :
    (∀ a ∈ [Artifact.mk "t1" ["p1"] ["gpg"]], ∀ p ∈ a.paths,
      (fun _ => true : String → Bool) (artifactFullPath "wd" a.taskId p) = true ∧
        ∀ f ∈ a.formats, f ∈ ["gpg", "jar"]) ∧
    build_filelist_dict (fun _ => true) "wd" ["gpg", "jar"]
        [Artifact.mk "t1" ["p1"] ["gpg"]] =
      .ok [("p1", "wd/cot/t1/p1", ["gpg"])] :=
  ⟨by decide, by
    have h := (c8_build_filelist_dict_batched (fun _ => true) "wd" ["gpg", "jar"]
      [Artifact.mk "t1" ["p1"] ["gpg"]]).2.2 (by decide)
    exact h.trans (by decide)⟩

/-! ## `task.py`: `get_token` -/

/-- The token-acquisition loop of `get_token` from `task.py`, after the
candidate list has been filtered (`get_suitable_signing_servers`) and
shuffled (`random.shuffle`): try each server in turn; a
`ScriptWorkerException` from `retry_request` (modelled as `.error ()`) or
an empty response text means continue with the next candidate; a
non-empty token is returned at once (the source then writes it to
`output_file`); an exhausted list raises `SigningServerError`. The
network is passed in as the `responses` function. -/
def get_token (responses : SigningServer → Except Unit String) :
    List SigningServer → Except ScriptError String
  | [] => .error (.signingServer "Cannot retrieve signing token")
  | s :: rest =>
    match responses s with
    | .ok token => if token = "" then get_token responses rest else .ok token
    | .error _ => get_token responses rest

/-- Does this server yield a usable (non-empty) token? -/
def yieldsToken (responses : SigningServer → Except Unit String)
    (s : SigningServer) : Bool :=
  match responses s with
  | .ok t => !(t == "")
  | .error _ => false

theorem get_token_error_iff (responses : SigningServer → Except Unit String)
    (servers : List SigningServer) :
    get_token responses servers =
        .error (.signingServer "Cannot retrieve signing token") ↔
      ∀ s ∈ servers, yieldsToken responses s = false := by
  induction servers with
  | nil => simp [get_token]
  | cons s rest ih =>
    simp only [get_token]
    cases hr : responses s with
    | ok t =>
      by_cases ht : t = ""
      · simp [ht, ih, yieldsToken, hr]
      · simp [ht, yieldsToken, hr]
    | error e => simp [ih, yieldsToken, hr]

theorem get_token_ok_source (responses : SigningServer → Except Unit String)
    (servers : List SigningServer) (t : String)
    (h : get_token responses servers = .ok t) :
    ∃ s ∈ servers, responses s = .ok t ∧ t ≠ "" := by
  induction servers with
  | nil => simp [get_token] at h
  | cons s rest ih =>
    rw [get_token] at h
    cases hr : responses s with
    | ok t2 =>
      rw [hr] at h
      by_cases ht : t2 = ""
      · simp only [ht, if_pos] at h
        obtain ⟨s2, hs2, h2⟩ := ih h
        exact ⟨s2, List.mem_cons_of_mem _ hs2, h2⟩
      · simp only [ht, if_neg, ite_false] at h
        obtain rfl : t2 = t := by injection h
        exact ⟨s, List.mem_cons_self _ _, hr, ht⟩
    | error e =>
      rw [hr] at h
      obtain ⟨s2, hs2, h2⟩ := ih h
      exact ⟨s2, List.mem_cons_of_mem _ hs2, h2⟩

theorem get_token_ok_exists (responses : SigningServer → Except Unit String)
    (servers : List SigningServer) :
    (∃ t, get_token responses servers = .ok t) ↔
      ∃ s ∈ servers, yieldsToken responses s = true := by
  induction servers with
  | nil => simp [get_token]
  | cons s rest ih =>
    simp only [get_token]
    cases hr : responses s with
    | ok t =>
      by_cases ht : t = ""
      · simp [ht, ih, yieldsToken, hr]
      · simp [ht, yieldsToken, hr]
    | error e => simp [ih, yieldsToken, hr]

/-- C9: for any shuffle of the filtered candidates, `get_token` fails with
`SigningServerError` exactly when no candidate yields a non-empty token
(recoverable failures and empty responses just move on to the next
candidate), any returned token comes from some candidate, a single good
candidate suffices for success, and a good candidate at the head succeeds
immediately. -/
theorem c9_get_token_failover
    (roster : List (String × List SigningServer)) (cert_type : String)
    (signing_formats : List String) (suitable servers : List SigningServer)
    (responses : SigningServer → Except Unit String)
    (_hsuit : get_suitable_signing_servers roster cert_type signing_formats =
      some suitable)
    (hperm : servers.Perm suitable) :
    (get_token responses servers =
        .error (.signingServer "Cannot retrieve signing token") ↔
      ∀ s ∈ suitable, yieldsToken responses s = false) ∧
    (∀ t, get_token responses servers = .ok t →
      ∃ s ∈ suitable, responses s = .ok t ∧ t ≠ "") ∧
    ((∃ s ∈ suitable, yieldsToken responses s = true) →
      ∃ t, get_token responses servers = .ok t) ∧
    (∀ s rest t, responses s = .ok t → t ≠ "" →
      get_token responses (s :: rest) = .ok t) := by
  refine ⟨?_, ?_, ?_, ?_⟩
  · rw [get_token_error_iff]
    constructor
    · intro h s hs
      exact h s (hperm.mem_iff.mpr hs)
    · intro h s hs
      exact h s (hperm.mem_iff.mp hs)
  · intro t ht
    obtain ⟨s, hs, h2⟩ := get_token_ok_source responses servers t ht
    exact ⟨s, hperm.mem_iff.mp hs, h2⟩
  · rintro ⟨s, hs, hy⟩
    exact (get_token_ok_exists responses servers).mpr ⟨s, hperm.mem_iff.mpr hs, hy⟩
  · intro s rest t h1 h2
    simp [get_token, h1, h2]

def serverA : SigningServer :=
  SigningServer.mk "sa.example.net" "u" "p" ["gpg"]

def serverB : SigningServer :=
  SigningServer.mk "sb.example.net" "u" "p" ["gpg", "jar"]

def rosterC9 : List (String × List SigningServer) :=
  [("dep-signing", [serverA, serverB])]

/-- Concrete network: server B fails with the recoverable error, server A
returns a token. -/
def responsesC9 : SigningServer → Except Unit String :=
  fun s => if s.server == "sb.example.net" then .error () else .ok "token-abc"

/-- C9 witness: with server B (tried first after the shuffle) failing
recoverably and server A healthy, token acquisition still succeeds. -/
theorem c9_get_token_failover_witness :
    (get_suitable_signing_servers rosterC9 "dep-signing" ["gpg"] =
        some [serverA, serverB] ∧
      ([serverB, serverA] : List SigningServer).Perm [serverA, serverB]) ∧
    (∃ t, get_token responsesC9 [serverB, serverA] = .ok t) :=
  ⟨⟨by decide, by decide⟩,
   (c9_get_token_failover rosterC9 "dep-signing" ["gpg"] [serverA, serverB]
      [serverB, serverA] responsesC9 (by decide) (by decide)).2.2.1
     ⟨serverA, by decide, by decide⟩⟩

/-! ## `task.py`: `sign` -/

/-- What a signing strategy returns: every strategy returns a single path
except `sign_gpg`, which returns the pair of original and detached
signature paths. -/
inductive SignedPath where
  | one (p : String)
  | many (ps : List String)
deriving DecidableEq, Repr

/-- The path shape produced by `FORMAT_TO_SIGNING_FUNCTION.get(fmt,
default)` applied to a path, abstracting the subprocess effects:
`sign_gpg` returns `[from, from + ".asc"]`; `sign_macapp` first converts
a `.dmg` into a `.tar.gz`; the Widevine strategies dispatch on the
container suffix (`sign_widevine` above) and return the input path;
`sign_jar`, the signcode variants and the default `sign_file` return the
input path. -/
def signing_function (fmt path : String) : Except ScriptError SignedPath :=
  if fmt = "gpg" then .ok (.many [path, path ++ ".asc"])
  else if fmt = "macapp" then
    .ok (.one (if extension path = ".dmg" then fileBase path ++ ".tar.gz" else path))
  else if fmt = "widevine" ∨ fmt = "widevine_blessed" then
    (sign_widevine path).map (fun _ => .one path)
  else .ok (.one path)

/-- The format loop of `sign` from `task.py`: thread `signed_file` through
each requested format's strategy in order. Feeding the multi-path result
of `sign_gpg` into a further strategy is a type error in the source (a
list where a path string is expected, crashing in the subprocess call);
that branch is modelled as a `SigningScriptError`. -/
def signLoop : List String → SignedPath → Except ScriptError SignedPath
  | [], st => .ok st
  | fmt :: rest, .one p =>
    match signing_function fmt p with
    | .ok st => signLoop rest st
    | .error e => .error e
  | _ :: _, .many _ => .error (.signingScript "cannot sign a list of paths")

/-- `sign` from `task.py` for one file: run the format chain starting from
`path`, then wrap a non-list result into a one-element list (`log_shas`
only logs and is omitted). -/
def sign (path : String) (signing_formats : List String) :
    Except ScriptError (List String) :=
  match signLoop signing_formats (.one path) with
  | .ok (.one p) => .ok [p]
  | .ok (.many ps) => .ok ps
  | .error e => .error e

theorem signing_function_many (fmt p : String) (ps : List String)
    (h : signing_function fmt p = .ok (.many ps)) : ps = [p, p ++ ".asc"] := by
  unfold signing_function at h
  by_cases h1 : fmt = "gpg"
  · simp [h1] at h
    exact h.symm
  · by_cases h2 : fmt = "macapp"
    · simp [h1, h2] at h
    · by_cases h3 : fmt = "widevine" ∨ fmt = "widevine_blessed"
      · simp only [h1, h2, h3, if_false, if_true, ite_true, ite_false] at h
        cases hsw : sign_widevine p <;> simp [hsw, Except.map] at h
      · simp [h1, h2, h3] at h

theorem signLoop_shape (formats : List String) (p : String) (st : SignedPath)
    (h : signLoop formats (.one p) = .ok st) :
    (∃ q, st = .one q) ∨ ∃ q, st = .many [q, q ++ ".asc"] := by
  induction formats generalizing p with
  | nil =>
    rw [signLoop] at h
    injection h with h2
    exact Or.inl ⟨p, h2.symm⟩
  | cons fmt rest ih =>
    rw [signLoop] at h
    cases hf : signing_function fmt p with
    | error e => rw [hf] at h; simp at h
    | ok st2 =>
      rw [hf] at h
      cases st2 with
      | one q => exact ih q h
      | many ps =>
        have hps := signing_function_many fmt p ps hf
        cases rest with
        | nil =>
          simp only [signLoop] at h
          injection h with h2
          exact Or.inr ⟨p, by rw [← h2, hps]⟩
        | cons f2 r2 =>
          simp only [signLoop] at h
          exact absurd h (by simp)

/-- C10: whenever `sign` returns, it returns a list of at least one path;
a chain whose last strategy produced a single path is wrapped into a
one-element list; a trailing `gpg` yields the two-element pair. -/
theorem c10_sign_returns_nonempty_list (path : String) (signing_formats : List String) :
    (∀ result, sign path signing_formats = .ok result → 1 ≤ result.length) ∧
    (∀ p, signLoop signing_formats (.one path) = .ok (.one p) →
      sign path signing_formats = .ok [p]) ∧
    sign "file.bin" ["gpg"] = .ok ["file.bin", "file.bin.asc"] := by
  refine ⟨?_, ?_, by decide⟩
  · intro result h
    unfold sign at h
    cases hl : signLoop signing_formats (.one path) with
    | error e => rw [hl] at h; simp at h
    | ok st =>
      rw [hl] at h
      cases st with
      | one p =>
        injection h with h2
        rw [← h2]
        simp
      | many ps =>
        rcases signLoop_shape _ _ _ hl with ⟨q, hq⟩ | ⟨q, hq⟩
        · cases hq
        · injection h with h2
          injection hq with h3
          rw [← h2, h3]
          simp
  · intro p h
    unfold sign
    rw [h]

/-- C10 witness: a single-path chain (`jar`) is wrapped into a one-element
list. -/
theorem c10_sign_returns_nonempty_list_witness :
    signLoop ["jar"] (.one "app.apk") = .ok (.one "app.apk") ∧
    sign "app.apk" ["jar"] = .ok ["app.apk"] ∧
    1 ≤ (["app.apk"] : List String).length :=
  ⟨by decide,
   (c10_sign_returns_nonempty_list "app.apk" ["jar"]).2.1 "app.apk" (by decide),
   (c10_sign_returns_nonempty_list "app.apk" ["jar"]).1 ["app.apk"]
     ((c10_sign_returns_nonempty_list "app.apk" ["jar"]).2.1 "app.apk" (by decide))⟩

end Signingscript
